import Mathlib

/-!
Verification of the history-cycling core of `i3-tools`
(`src/i3_tools/i3_cycle_focus.py` and `src/i3_tools/i3_cycle_workspace.py`).

The two Python files implement the same engine twice: per-scope
most-recently-focused lists (`self.window_list` / `self.ws_list`, a dict
from scope-key string to a list of entity ids) and per-scope rotation
cursors (`self.window_index` / `self.ws_index`, a dict from scope-key to a
one-element list holding an int, used as a mutable cell).  We embed the
engine once, generically in the entity-id type `Id` (ids are ints for
windows, strings for workspaces), with the window-variant names; the
workspace variant is the instantiation at `Id := String`.

Python dicts are embedded as association lists with unique keys in the
states actually built by the code; `alookup` is `dict.get`, `alistSet` is
`dict[k] = v`.  The cursor cell `[n]` is embedded as the integer `n`.
Operations that can raise in Python (`self.window_index[key][0] = 1` with a
missing key raises KeyError; `list.remove` of an absent element raises
ValueError; `widx[0]` with `widx = None` raises TypeError) return `Option`,
with `none` for the raise.  Environment queries (the i3 tree, the focused
container, the valid-window set, the derived scope key, the debounce sleep)
are parameters of the embedded functions.
-/

namespace I3Tools

/-- `GLOBAL_KEY` of both scripts: the scope key used when not tracking
per output / per workspace. -/
def GLOBAL_KEY : String := "_global_"

/-- `STATE_VER` of both scripts: the persisted-state schema version. -/
def STATE_VER : Int := 1

/-- Python `list.remove(x)`'s effect when `x` is present: remove the first
occurrence of `x`.  (The caller models the ValueError of an absent `x`.) -/
def removeFirst {Id : Type} [DecidableEq Id] (x : Id) : List Id → List Id
  | [] => []
  | y :: ys => if y = x then ys else y :: removeFirst x ys

/-- Python `dict.get(k)` on an association list. -/
def alookup {β : Type} (k : String) : List (String × β) → Option β
  | [] => none
  | (k', v) :: rest => if k' = k then some v else alookup k rest

/-- Python `dict[k] = v` on an association list: replace the first binding
of `k`, or append a new binding. -/
def alistSet {β : Type} (k : String) (v : β) : List (String × β) → List (String × β)
  | [] => [(k, v)]
  | (k', v') :: rest => if k' = k then (k, v) :: rest else (k', v') :: alistSet k v rest

/-- The mutable state of a `FocusWatcher`: `self.window_list` (scope key to
history list) and `self.window_index` (scope key to rotation cursor; the
Python one-element list `[n]` is embedded as `n`). -/
structure FWState (Id : Type) where
  window_list : List (String × List Id)
  window_index : List (String × Int)
deriving DecidableEq

/-- `FocusWatcher.__init__`: both dicts start empty. -/
def emptyState (Id : Type) : FWState Id := { window_list := [], window_index := [] }

/-- Lines 92-99 of `update_window_list` (93-100 of `update_ws_list`): drop
`window_id` if already present, push it to the front, and trim the tail
when the list exceeds `MAX_WIN_HISTORY` (here the argument `maxHist`). -/
def record_body {Id : Type} [DecidableEq Id] (maxHist : Nat) (window_id : Id)
    (wlist : List Id) : List Id :=
  let wlist := if window_id ∈ wlist then removeFirst window_id wlist else wlist
  let wlist := window_id :: wlist
  if maxHist < wlist.length then wlist.take maxHist else wlist

/-- `FocusWatcher.update_window_list` (= `update_ws_list`), after the
debounce sleep and the key derivation: fetch or lazily create the scope's
list, reset the scope's cursor to 1, then run `record_body`.  When
`self.window_list` has the key but `self.window_index` does not,
`self.window_index[key][0] = 1` raises KeyError, embedded as `none`. -/
def update_window_list {Id : Type} [DecidableEq Id] (maxHist : Nat) (key : String)
    (window_id : Id) (s : FWState Id) : Option (FWState Id) :=
  match alookup key s.window_list with
  | none =>
      some { window_list := alistSet key (record_body maxHist window_id []) s.window_list,
             window_index := alistSet key 1 s.window_index }
  | some wlist =>
      match alookup key s.window_index with
      | none => none
      | some _ =>
          some { window_list := alistSet key (record_body maxHist window_id wlist) s.window_list,
                 window_index := alistSet key 1 s.window_index }

/-- `FocusWatcher.update_ws_list` of `i3_cycle_workspace.py` is line-for-line
the same mutation with workspace names (strings) as entity ids. -/
def update_ws_list (maxHist : Nat) (key : String) (ws_id : String)
    (s : FWState String) : Option (FWState String) :=
  update_window_list maxHist key ws_id s

/-- A sequence of `record` calls on one scope key, in order. -/
def recordSeq {Id : Type} [DecidableEq Id] (maxHist : Nat) (key : String) :
    List Id → FWState Id → Option (FWState Id)
  | [], s => some s
  | x :: xs, s =>
      match update_window_list maxHist key x s with
      | none => none
      | some s' => recordSeq maxHist key xs s'

/-- A sequence of `record` calls on arbitrary scope keys, in order. -/
def recordSeqM {Id : Type} [DecidableEq Id] (maxHist : Nat) :
    List (String × Id) → FWState Id → Option (FWState Id)
  | [], s => some s
  | (k, x) :: xs, s =>
      match update_window_list maxHist k x s with
      | none => none
      | some s' => recordSeqM maxHist xs s'

/-- Python `l[i:]` for an int `i`: a copied suffix; a negative `i` counts
from the end. -/
def pySlice {Id : Type} (l : List Id) (i : Int) : List Id :=
  if 0 ≤ i then l.drop i.toNat
  else l.drop (l.length - min l.length (-i).toNat)

/-- Outcome of the `switch_win` scan loop: the (mutated) history list, the
final cursor, and the focus command's target if one was issued. -/
structure SwitchResult (Id : Type) where
  wlist : List Id
  idx : Int
  command : Option Id
deriving DecidableEq

/-- Lines 160-172 of `switch_win` (125-137 of `switch_ws`): iterate over the
snapshot slice `wlist[widx[0]:]`; an id not in the valid set is removed from
the live list (`none` embeds `list.remove`'s ValueError on an absent id);
the focused id advances the cursor; otherwise the cursor advances or wraps
to 0 and a focus command is issued for that id, ending the scan. -/
def scan_loop {Id : Type} [DecidableEq Id] (windows : List Id) (focused : Id)
    (histLimit : Nat) : List Id → List Id → Int → Option (SwitchResult Id)
  | [], wlist, idx => some ⟨wlist, idx, none⟩
  | w :: rest, wlist, idx =>
      if w ∉ windows then
        if w ∈ wlist then scan_loop windows focused histLimit rest (removeFirst w wlist) idx
        else none
      else if w = focused then scan_loop windows focused histLimit rest wlist (idx + 1)
      else
        some ⟨wlist,
              if idx < ((min wlist.length histLimit : Nat) : Int) - 1 then idx + 1 else 0,
              some w⟩

/-- `FocusWatcher.switch_win` (= `switch_ws`), with the environment queries
(the derived scope key, the focused entity id, the valid-entity set) taken
as arguments.  No history list for the key is an early no-op return; a
present list with a missing cursor entry makes `wlist[widx[0]:]` raise
TypeError (`widx` is `None`), embedded as `none`.  Returns the new state
and the issued command's target, if any. -/
def switch_win {Id : Type} [DecidableEq Id] (histLimit : Nat) (key : String)
    (focused : Id) (windows : List Id) (s : FWState Id) :
    Option (FWState Id × Option Id) :=
  match alookup key s.window_list with
  | none => some (s, none)
  | some wlist =>
      match alookup key s.window_index with
      | none => none
      | some idx =>
          match scan_loop windows focused histLimit (pySlice wlist idx) wlist idx with
          | none => none
          | some r =>
              some ({ window_list := alistSet key r.wlist s.window_list,
                      window_index := alistSet key r.idx s.window_index },
                    r.command)

/-- `FocusWatcher.switch_ws` of `i3_cycle_workspace.py`: the same scan with
workspace names as entity ids. -/
def switch_ws (histLimit : Nat) (key : String) (focused : String)
    (workspaces : List String) (s : FWState String) :
    Option (FWState String × Option (String)) :=
  switch_win histLimit key focused workspaces s

/-- The successfully parsed persisted JSON object, at the granularity the
code inspects it: `state.get('ver')` (`none` embeds both an absent `ver`
and one that is not an int, since either compares unequal to `STATE_VER`),
and the two optional scope-keyed maps. -/
structure StateFile (Id : Type) where
  ver : Option Int
  window_list : Option (List (String × List Id))
  window_index : Option (List (String × Int))

/-- What `hydrate_state` finds at `STATE_FILE`: no readable file, a file
`json.load` fails on, a parsed JSON value that is not a dict, or a parsed
dict. -/
inductive FileContent (Id : Type) where
  | missing
  | unparseable
  | parsedNonDict
  | parsedDict (d : StateFile Id)

/-- Python `x or {}` on an optional map: `None` and the empty dict both
give `{}`. -/
def getOrEmptyList {α : Type} : Option (List α) → List α
  | none => []
  | some l => l

/-- `FocusWatcher.hydrate_state`: on a missing or unreadable file, a parse
failure, a non-dict value, or a `ver` mismatch, return leaving `s` (the
fresh `__init__` state in `run_server`) untouched; otherwise install the
two maps, defaulting each absent one to empty.  Total: every failure path
is an early return, never an exception. -/
def hydrate_state {Id : Type} (file : FileContent Id) (s : FWState Id) : FWState Id :=
  match file with
  | .missing => s
  | .unparseable => s
  | .parsedNonDict => s
  | .parsedDict d =>
      if d.ver = some STATE_VER then
        { window_list := getOrEmptyList d.window_list,
          window_index := getOrEmptyList d.window_index }
      else s

/-- `FocusWatcher.persist_state`: write the two maps with the current
schema version.  The JSON text itself is not modelled; the file content is
embedded at the structure the reader inspects (this schema round-trips
through `json.dumps`/`json.load` unchanged: string keys, int/string ids,
int cursors). -/
def persist_state {Id : Type} (s : FWState Id) : FileContent Id :=
  .parsedDict { ver := some STATE_VER,
                window_list := some s.window_list,
                window_index := some s.window_index }

/-- A `window::focus` event's container, at the granularity
`on_window_focus` inspects it: the `floating` field (one of `"auto_on"`,
`"auto_off"`, `"user_on"`, `"user_off"`) and the container itself, which
the scheduled `update_window_list` task will record. -/
structure WinEvent (Id : Type) where
  floating : String
  container : Id

/-- `FocusWatcher.on_window_focus`, acting on `self.update_task` embedded
as the container the pending debounce task will record (`none`: no pending
task).  A floating container under `--ignore-floating` returns before the
cancel and before the reschedule, so the pending task survives; otherwise
any pending task is cancelled and a task for this event's container is
scheduled. -/
def on_window_focus {Id : Type} (ignore_float : Bool) (event : WinEvent Id)
    (update_task : Option Id) : Option Id :=
  if ignore_float ∧ (event.floating = "user_on" ∨ event.floating = "auto_on") then
    update_task
  else
    some event.container

/-! ### Association-list lemmas -/

theorem alookup_alistSet_self {β : Type} (k : String) (v : β) (l : List (String × β)) :
    alookup k (alistSet k v l) = some v := by
  induction l with
  | nil => simp [alookup, alistSet]
  | cons p rest ih =>
      obtain ⟨k', v'⟩ := p
      by_cases h : k' = k
      · simp [alookup, alistSet, h]
      · simp [alookup, alistSet, h, ih]

theorem alookup_alistSet_ne {β : Type} {k k' : String} (hne : k' ≠ k) (v : β)
    (l : List (String × β)) : alookup k' (alistSet k v l) = alookup k' l := by
  have hk : ¬ k = k' := Ne.symm hne
  induction l with
  | nil => simp [alookup, alistSet, hk]
  | cons p rest ih =>
      obtain ⟨k0, v0⟩ := p
      by_cases h : k0 = k
      · subst h
        simp [alookup, alistSet, hk]
      · simp [alookup, alistSet, h, ih]

/-! ### removeFirst lemmas -/

theorem removeFirst_sublist {Id : Type} [DecidableEq Id] (x : Id) (l : List Id) :
    List.Sublist (removeFirst x l) l := by
  induction l with
  | nil => exact List.Sublist.refl _
  | cons y ys ih =>
      by_cases h : y = x
      · rw [removeFirst, if_pos h]
        exact (List.Sublist.refl ys).cons y
      · rw [removeFirst, if_neg h]
        exact ih.cons₂ y

theorem not_mem_removeFirst_self {Id : Type} [DecidableEq Id] {x : Id} {l : List Id}
    (hnd : l.Nodup) : x ∉ removeFirst x l := by
  induction l with
  | nil => simp [removeFirst]
  | cons y ys ih =>
      rw [List.nodup_cons] at hnd
      by_cases h : y = x
      · subst h
        simpa [removeFirst] using hnd.1
      · simp only [removeFirst, if_neg h, List.mem_cons]
        rintro (rfl | hx)
        · exact h rfl
        · exact ih hnd.2 hx

theorem mem_removeFirst_of_ne {Id : Type} [DecidableEq Id] {x y : Id} {l : List Id}
    (hne : y ≠ x) (hy : y ∈ l) : y ∈ removeFirst x l := by
  induction l with
  | nil => simp at hy
  | cons z zs ih =>
      rcases List.mem_cons.mp hy with rfl | hy'
      · simp [removeFirst, hne]
      · by_cases h : z = x
        · simpa [removeFirst, h] using hy'
        · simp [removeFirst, h, ih hy']

theorem removeFirst_append_of_not_mem {Id : Type} [DecidableEq Id] (x : Id)
    {front : List Id} (rest : List Id) (hx : x ∉ front) :
    removeFirst x (front ++ x :: rest) = front ++ rest := by
  induction front with
  | nil => simp [removeFirst]
  | cons y ys ih =>
      have hyx : ¬ y = x := fun h => hx (h ▸ List.mem_cons_self y ys)
      have hx' : x ∉ ys := fun h => hx (List.mem_cons_of_mem y h)
      simp [removeFirst, hyx, ih hx']

/-! ### record_body lemmas -/

theorem record_body_eq {Id : Type} [DecidableEq Id] (m : Nat) (x : Id) (l : List Id) :
    record_body m x l
      = (if m < (x :: (if x ∈ l then removeFirst x l else l)).length
         then (x :: (if x ∈ l then removeFirst x l else l)).take m
         else x :: (if x ∈ l then removeFirst x l else l)) := rfl

theorem record_body_nodup {Id : Type} [DecidableEq Id] (m : Nat) (x : Id) {l : List Id}
    (hnd : l.Nodup) : (record_body m x l).Nodup := by
  have base : ∀ r : List Id, r.Nodup → x ∉ r →
      (if m < (x :: r).length then (x :: r).take m else x :: r).Nodup := by
    intro r hr hxr
    have hcons : (x :: r).Nodup := List.nodup_cons.mpr ⟨hxr, hr⟩
    by_cases h : m < (x :: r).length
    · rw [if_pos h]
      exact hcons.sublist (List.take_sublist m (x :: r))
    · rw [if_neg h]
      exact hcons
  rw [record_body_eq]
  by_cases hx : x ∈ l
  · simpa [hx] using
      base (removeFirst x l) (hnd.sublist (removeFirst_sublist x l)) (not_mem_removeFirst_self hnd)
  · simpa [hx] using base l hnd hx

theorem record_body_head {Id : Type} [DecidableEq Id] (m : Nat) (x : Id) (l : List Id)
    (hm : 1 ≤ m) : (record_body m x l).head? = some x := by
  rw [record_body_eq]
  obtain ⟨n, rfl⟩ : ∃ n, m = n + 1 := ⟨m - 1, by omega⟩
  by_cases h : n + 1 < (x :: (if x ∈ l then removeFirst x l else l)).length
  · rw [if_pos h, List.take_succ_cons]
    rfl
  · rw [if_neg h]
    rfl

theorem record_body_length {Id : Type} [DecidableEq Id] (m : Nat) (x : Id) (l : List Id) :
    (record_body m x l).length ≤ m := by
  rw [record_body_eq]
  by_cases h : m < (x :: (if x ∈ l then removeFirst x l else l)).length
  · rw [if_pos h, List.length_take]
    exact Nat.min_le_left m _
  · rw [if_neg h]
    exact Nat.le_of_not_lt h

/-! ### Invariants of the record path -/

/-- States whose stored list for `key` (if any) is duplicate-free and
accompanied by a cursor entry (as every state built by the code is). -/
def NodupInv {Id : Type} (key : String) (s : FWState Id) : Prop :=
  ∀ l, alookup key s.window_list = some l →
    l.Nodup ∧ (alookup key s.window_index).isSome = true

theorem update_window_list_same_key {Id : Type} [DecidableEq Id] (m : Nat) (key : String)
    (x : Id) (s : FWState Id) (hInv : NodupInv key s) :
    ∃ l', update_window_list m key x s
        = some { window_list := alistSet key l' s.window_list,
                 window_index := alistSet key 1 s.window_index }
      ∧ l'.Nodup ∧ (1 ≤ m → l'.head? = some x) := by
  cases hl : alookup key s.window_list with
  | none =>
      refine ⟨record_body m x [], ?_, record_body_nodup m x List.nodup_nil,
              fun hm => record_body_head m x [] hm⟩
      unfold update_window_list
      rw [hl]
  | some wl =>
      obtain ⟨hnd, hidx⟩ := hInv wl hl
      cases hi : alookup key s.window_index with
      | none =>
          rw [hi] at hidx
          simp at hidx
      | some c =>
          refine ⟨record_body m x wl, ?_, record_body_nodup m x hnd,
                  fun hm => record_body_head m x wl hm⟩
          unfold update_window_list
          rw [hl, hi]

theorem NodupInv_set {Id : Type} (key : String) (s : FWState Id) (l' : List Id)
    (hnd : l'.Nodup) :
    NodupInv key { window_list := alistSet key l' s.window_list,
                   window_index := alistSet key 1 s.window_index } := by
  intro l hl
  rw [alookup_alistSet_self] at hl
  obtain rfl : l' = l := Option.some.inj hl
  refine ⟨hnd, ?_⟩
  rw [alookup_alistSet_self]
  rfl

theorem recordSeq_nodup_aux {Id : Type} [DecidableEq Id] (m : Nat) (key : String)
    (ids : List Id) :
    ∀ s : FWState Id, NodupInv key s →
      ∃ s', recordSeq m key ids s = some s' ∧ NodupInv key s' ∧
        ∀ x, ids.getLast? = some x → 1 ≤ m →
          ∃ l, alookup key s'.window_list = some l ∧ l.Nodup ∧ l.head? = some x := by
  induction ids with
  | nil =>
      intro s h
      exact ⟨s, rfl, h, by simp⟩
  | cons x xs ih =>
      intro s h
      obtain ⟨l', hupd, hnd', hhd⟩ := update_window_list_same_key m key x s h
      set s1 : FWState Id := { window_list := alistSet key l' s.window_list,
                               window_index := alistSet key 1 s.window_index } with hs1
      have hInv1 : NodupInv key s1 := NodupInv_set key s l' hnd'
      obtain ⟨s', hrec, hInv', hlast⟩ := ih s1 hInv1
      refine ⟨s', ?_, hInv', ?_⟩
      · simp only [recordSeq]
        rw [hupd]
        exact hrec
      · intro y hy hm
        cases xs with
        | nil =>
            have hxy : x = y := by simpa using hy
            subst hxy
            have hs' : s1 = s' := by simpa [recordSeq] using hrec
            subst hs'
            exact ⟨l', alookup_alistSet_self key l' s.window_list, hnd', hhd hm⟩
        | cons z zs =>
            rw [List.getLast?_cons_cons] at hy
            exact hlast y hy hm

/-- C1: for every sequence of record operations (`update_window_list` /
`update_ws_list`) on one scope starting from the empty state, the
resulting history list of that scope has no duplicate identifier and the
most recently recorded identifier is at index 0.  (Every prefix of a
sequence is itself a sequence, so this covers the state after each
record.) -/
theorem record_seq_nodup_mru_head {Id : Type} [DecidableEq Id] (maxHist : Nat) (key : String)
    (ids : List Id) (hmax : 1 ≤ maxHist) (hne : ids ≠ []) :
    ∃ s, recordSeq maxHist key ids (emptyState Id) = some s ∧
      ∃ l, alookup key s.window_list = some l ∧ l.Nodup ∧ l.head? = ids.getLast? := by
  have hInv : NodupInv key (emptyState Id) := by
    intro l hl
    simp [emptyState, alookup] at hl
  obtain ⟨s, hs, _, hlast⟩ := recordSeq_nodup_aux maxHist key ids (emptyState Id) hInv
  obtain ⟨x, hx⟩ := Option.isSome_iff_exists.mp (List.getLast?_isSome.mpr hne)
  obtain ⟨l, hl, hnd, hhd⟩ := hlast x hx hmax
  exact ⟨s, hs, l, hl, hnd, by rw [hx, hhd]⟩

/-- Witness for C1: the sequence 1, 2, 1 on scope "k" with maxHist 21
(history 16 + 5). -/
theorem record_seq_nodup_mru_head_witness :
    ∃ s, recordSeq 21 "k" [1, 2, 1] (emptyState Nat) = some s ∧
      ∃ l, alookup "k" s.window_list = some l ∧ l.Nodup ∧ l.head? = [1, 2, 1].getLast? :=
  record_seq_nodup_mru_head 21 "k" [1, 2, 1] (by decide) (by decide)

/-- C6: every record operation (`update_window_list` / `update_ws_list`)
sets the recorded scope's rotation cursor to 1, whatever its prior value;
a newly created scope also starts with cursor 1. -/
theorem record_resets_cursor_one {Id : Type} [DecidableEq Id] (m : Nat) (key : String)
    (x : Id) (s s' : FWState Id) (h : update_window_list m key x s = some s') :
    alookup key s'.window_index = some 1 := by
  unfold update_window_list at h
  cases hl : alookup key s.window_list with
  | none =>
      rw [hl] at h
      cases h
      exact alookup_alistSet_self key 1 s.window_index
  | some wl =>
      rw [hl] at h
      cases hi : alookup key s.window_index with
      | none =>
          rw [hi] at h
          cases h
      | some c =>
          rw [hi] at h
          cases h
          exact alookup_alistSet_self key 1 s.window_index

/-- Witness for C6: a record on scope "k" whose prior cursor is 44 resets
the cursor to 1. -/
theorem record_resets_cursor_one_witness :
    alookup "k" (⟨[("k", [5, 9])], [("k", 1)]⟩ : FWState Nat).window_index = some 1 :=
  record_resets_cursor_one 21 "k" 5 ⟨[("k", [9])], [("k", 44)]⟩
    ⟨[("k", [5, 9])], [("k", 1)]⟩ (by decide)

/-- States all of whose lists are within the length bound `m` and have
cursor entries. -/
def LenInv {Id : Type} (m : Nat) (s : FWState Id) : Prop :=
  ∀ k l, alookup k s.window_list = some l →
    l.length ≤ m ∧ (alookup k s.window_index).isSome = true

theorem update_window_list_LenInv {Id : Type} [DecidableEq Id] (m : Nat) (key : String)
    (x : Id) (s : FWState Id) (hInv : LenInv m s) :
    ∃ s', update_window_list m key x s = some s' ∧ LenInv m s' := by
  have hset : ∀ wl : List Id,
      LenInv m { window_list := alistSet key (record_body m x wl) s.window_list,
                 window_index := alistSet key 1 s.window_index } := by
    intro wl k l hl
    by_cases hk : k = key
    · subst hk
      rw [alookup_alistSet_self] at hl
      obtain rfl := Option.some.inj hl
      refine ⟨record_body_length m x wl, ?_⟩
      rw [alookup_alistSet_self]
      rfl
    · rw [alookup_alistSet_ne hk] at hl
      obtain ⟨h1, h2⟩ := hInv k l hl
      refine ⟨h1, ?_⟩
      rw [alookup_alistSet_ne hk]
      exact h2
  cases hl : alookup key s.window_list with
  | none =>
      refine ⟨_, ?_, hset []⟩
      unfold update_window_list
      rw [hl]
  | some wl =>
      obtain ⟨_, hidx⟩ := hInv key wl hl
      cases hi : alookup key s.window_index with
      | none =>
          rw [hi] at hidx
          simp at hidx
      | some c =>
          refine ⟨_, ?_, hset wl⟩
          unfold update_window_list
          rw [hl, hi]

theorem recordSeqM_LenInv {Id : Type} [DecidableEq Id] (m : Nat) (ops : List (String × Id)) :
    ∀ s : FWState Id, LenInv m s → ∃ s', recordSeqM m ops s = some s' ∧ LenInv m s' := by
  induction ops with
  | nil =>
      intro s h
      exact ⟨s, rfl, h⟩
  | cons p rest ih =>
      intro s h
      obtain ⟨k, x⟩ := p
      obtain ⟨s1, hupd, h1⟩ := update_window_list_LenInv m k x s h
      obtain ⟨s', hrec, h'⟩ := ih s1 h1
      refine ⟨s', ?_, h'⟩
      simp only [recordSeqM]
      rw [hupd]
      exact hrec

/-- C5: for every sequence of record operations starting from the empty
state, with the trim bound `MAX_WIN_HISTORY = WIN_HISTORY + 5` of the
source, every scope's history list has length at most `history_limit + 5`
after each record (every prefix of a sequence being itself a sequence). -/
theorem record_seq_length_bound {Id : Type} [DecidableEq Id] (histLimit : Nat)
    (ops : List (String × Id)) :
    ∃ s, recordSeqM (histLimit + 5) ops (emptyState Id) = some s ∧
      ∀ k l, alookup k s.window_list = some l → l.length ≤ histLimit + 5 := by
  have h0 : LenInv (histLimit + 5) (emptyState Id) := by
    intro k l hl
    simp [emptyState, alookup] at hl
  obtain ⟨s, hs, hinv⟩ := recordSeqM_LenInv (histLimit + 5) ops (emptyState Id) h0
  exact ⟨s, hs, fun k l hl => (hinv k l hl).1⟩

/-- Witness for C5: two records on scope "a" with history limit 0 (trim
bound 5). -/
theorem record_seq_length_bound_witness :
    ∃ s, recordSeqM (0 + 5) [("a", (5 : Nat)), ("a", 6)] (emptyState Nat) = some s ∧
      ∀ k l, alookup k s.window_list = some l → l.length ≤ 0 + 5 :=
  record_seq_length_bound 0 [("a", 5), ("a", 6)]

/-- C7: `persist_state` followed by `hydrate_state` under the same schema
version reproduces exactly the scoped lists and cursors, whatever state
the hydrating watcher started in. -/
theorem persist_hydrate_round_trip {Id : Type} (s s0 : FWState Id) :
    hydrate_state (persist_state s) s0 = s := rfl

/-- C8: `hydrate_state` on a missing or unreadable file, a file the JSON
parse fails on, a parsed non-dict value, or a parsed dict whose `ver` is
not the current schema version leaves the fresh state empty; the function
is total, so no exception is raised on any of these paths. -/
theorem hydrate_failure_yields_empty {Id : Type} (file : FileContent Id)
    (h : ∀ d, file = FileContent.parsedDict d → d.ver ≠ some STATE_VER) :
    hydrate_state file (emptyState Id) = emptyState Id := by
  cases file with
  | missing => rfl
  | unparseable => rfl
  | parsedNonDict => rfl
  | parsedDict d =>
      have hv := h d rfl
      simp [hydrate_state, hv]

/-- Witness for C8: a persisted dict carrying ver = 2 against current
schema version 1. -/
theorem hydrate_failure_yields_empty_witness :
    hydrate_state (FileContent.parsedDict ⟨some 2, none, none⟩) (emptyState Nat)
      = emptyState Nat :=
  hydrate_failure_yields_empty _ (fun d hd => by
    injection hd with h2
    subst h2
    decide)

/-- C9: with `--ignore-floating` set, a focus event whose container floats
(`user_on` or `auto_on`) returns before the cancel and before the
reschedule: the pending debounce task is left exactly in place (so an
earlier non-filtered entity's pending commit is not cancelled) and no task
recording the filtered container is created. -/
theorem floating_event_skips_pending {Id : Type} (event : WinEvent Id)
    (update_task : Option Id)
    (h : event.floating = "user_on" ∨ event.floating = "auto_on") :
    on_window_focus true event update_task = update_task := by
  unfold on_window_focus
  rw [if_pos ⟨rfl, h⟩]

/-- Witness for C9: a floating (`user_on`) focus event with a pending task
for entity 3 leaves that task pending. -/
theorem floating_event_skips_pending_witness :
    on_window_focus true ⟨"user_on", (5 : Nat)⟩ (some 3) = some 3 :=
  floating_event_skips_pending ⟨"user_on", 5⟩ (some 3) (Or.inl rfl)

/-! ### Scan-loop lemmas -/

theorem mem_pySlice {Id : Type} {w : Id} {l : List Id} {i : Int} (h : w ∈ pySlice l i) :
    w ∈ l := by
  unfold pySlice at h
  by_cases hi : 0 ≤ i
  · rw [if_pos hi] at h
    exact List.mem_of_mem_drop h
  · rw [if_neg hi] at h
    exact List.mem_of_mem_drop h

theorem pySlice_nonneg {Id : Type} (l : List Id) {i : Int} (hi : 0 ≤ i) :
    pySlice l i = l.drop i.toNat := by
  unfold pySlice
  rw [if_pos hi]

theorem scan_loop_empty_windows {Id : Type} [DecidableEq Id] (focused : Id)
    (histLimit : Nat) :
    ∀ (tail front : List Id) (idx : Int), (front ++ tail).Nodup →
      scan_loop [] focused histLimit tail (front ++ tail) idx
        = some ⟨front, idx, none⟩ := by
  intro tail
  induction tail with
  | nil =>
      intro front idx h
      simp [scan_loop]
  | cons w rest ih =>
      intro front idx h
      have hw_mem : w ∈ front ++ w :: rest :=
        List.mem_append_right front (List.mem_cons_self w rest)
      have hw_not_front : w ∉ front := by
        rcases List.nodup_append.mp h with ⟨h1, h2, hdisj⟩
        intro hwf
        exact hdisj hwf (List.mem_cons_self w rest)
      have hrm := removeFirst_append_of_not_mem w rest hw_not_front
      have hsub : List.Sublist (front ++ rest) (front ++ w :: rest) :=
        List.Sublist.append_left ((List.Sublist.refl rest).cons w) front
      have hnd' : (front ++ rest).Nodup := h.sublist hsub
      simp only [scan_loop]
      rw [if_pos (List.not_mem_nil w), if_pos hw_mem, hrm]
      exact ih front idx hnd'

theorem scan_loop_command_cursor_bound {Id : Type} [DecidableEq Id] (windows : List Id)
    (focused : Id) (histLimit : Nat) (hlim : 1 ≤ histLimit) :
    ∀ (tail wlist : List Id) (idx : Int) (r : SwitchResult Id),
      0 ≤ idx →
      (∀ w, w ∈ tail → w ∈ windows → w ∈ wlist) →
      scan_loop windows focused histLimit tail wlist idx = some r →
      r.command.isSome = true →
      0 ≤ r.idx ∧ r.idx ≤ ((min r.wlist.length histLimit : Nat) : Int) - 1 := by
  intro tail
  induction tail with
  | nil =>
      intro wlist idx r hpos hmem hr hsome
      simp only [scan_loop] at hr
      obtain rfl := Option.some.inj hr
      simp at hsome
  | cons w rest ih =>
      intro wlist idx r hpos hmem hr hsome
      simp only [scan_loop] at hr
      by_cases hw : w ∈ windows
      · rw [if_neg (fun hn => hn hw)] at hr
        by_cases hf : w = focused
        · rw [if_pos hf] at hr
          exact ih wlist (idx + 1) r (by omega)
            (fun y hy hyw => hmem y (List.mem_cons_of_mem w hy) hyw) hr hsome
        · rw [if_neg hf] at hr
          obtain rfl := Option.some.inj hr
          have hwl : w ∈ wlist := hmem w (List.mem_cons_self w rest) hw
          have hlen : 1 ≤ wlist.length := List.length_pos.mpr (List.ne_nil_of_mem hwl)
          have hmin : 1 ≤ min wlist.length histLimit := le_min hlen hlim
          have hminZ : (1 : Int) ≤ ((min wlist.length histLimit : Nat) : Int) := by
            exact_mod_cast hmin
          dsimp only
          by_cases hc : idx < ((min wlist.length histLimit : Nat) : Int) - 1
          · rw [if_pos hc]
            omega
          · rw [if_neg hc]
            omega
      · rw [if_pos hw] at hr
        by_cases hwl : w ∈ wlist
        · rw [if_pos hwl] at hr
          refine ih (removeFirst w wlist) idx r hpos ?_ hr hsome
          intro y hy hyw
          have hyne : y ≠ w := fun he => hw (he ▸ hyw)
          exact mem_removeFirst_of_ne hyne (hmem y (List.mem_cons_of_mem w hy) hyw)
        · rw [if_neg hwl] at hr
          cases hr

/-- C2 (counterexample): cycling scope "k" holding list [5] with cursor 1
against an empty valid-entity set issues no command, as claimed, but the
history list is not emptied: the scan only covers the slice from the
cursor onward, so entry 5 at position 0 survives. -/
theorem switch_empty_valid_cex :
    switch_win 16 "k" (7 : Nat) [] ⟨[("k", [5])], [("k", 1)]⟩
      = some (⟨[("k", [5])], [("k", 1)]⟩, none)
    ∧ alookup "k" ([("k", [5])] : List (String × List Nat)) = some [5]
    ∧ ([5] : List Nat) ≠ [] := by decide

/-- C2 (amended): cycling a duplicate-free scope list with a nonnegative
cursor against an empty valid-entity set issues no focus command and
removes exactly the scanned entries, the ones at positions at or past the
cursor; the untouched positions before the cursor remain, so the list is
fully emptied precisely when the cursor is 0. -/
theorem switch_empty_valid_amended {Id : Type} [DecidableEq Id] (histLimit : Nat)
    (key : String) (focused : Id) (s : FWState Id) (wlist : List Id) (idx : Int)
    (hl : alookup key s.window_list = some wlist) (hnd : wlist.Nodup)
    (hi : alookup key s.window_index = some idx) (hpos : 0 ≤ idx) :
    switch_win histLimit key focused [] s
      = some ({ window_list := alistSet key (wlist.take idx.toNat) s.window_list,
                window_index := alistSet key idx s.window_index }, none) := by
  have hsplit : wlist.take idx.toNat ++ wlist.drop idx.toNat = wlist :=
    List.take_append_drop idx.toNat wlist
  have hscan := scan_loop_empty_windows focused histLimit (wlist.drop idx.toNat)
    (wlist.take idx.toNat) idx (by rw [hsplit]; exact hnd)
  rw [hsplit] at hscan
  unfold switch_win
  rw [hl]
  dsimp only
  rw [hi]
  dsimp only
  rw [pySlice_nonneg wlist hpos, hscan]

/-- Witness for the amended C2: scope "k" with list [5, 6], cursor 1, and
an empty valid set keeps [5] and issues no command. -/
theorem switch_empty_valid_amended_witness :
    switch_win 16 "k" (9 : Nat) [] ⟨[("k", [5, 6])], [("k", 1)]⟩
      = some ({ window_list := alistSet "k" ([5, 6].take (1 : Int).toNat) [("k", [5, 6])],
                window_index := alistSet "k" 1 [("k", 1)] }, none) :=
  switch_empty_valid_amended 16 "k" 9 ⟨[("k", [5, 6])], [("k", 1)]⟩ [5, 6] 1
    (by decide) (by decide) (by decide) (by decide)

/-- C3 (counterexample): on scope "k" with list [10, 20], cursor 1, focused
entity 20 and valid set containing only 20, the switch scan takes the
skip-self branch and leaves the cursor at 2, outside
[0, min(len, history_limit) - 1] = [0, 1], with the list still non-empty. -/
theorem switch_cursor_bound_cex :
    switch_win 16 "k" (20 : Nat) [20] ⟨[("k", [10, 20])], [("k", 1)]⟩
      = some (⟨[("k", [10, 20])], [("k", 2)]⟩, none)
    ∧ ([10, 20] : List Nat) ≠ []
    ∧ ¬ ((2 : Int) ≤ ((min ([10, 20] : List Nat).length 16 : Nat) : Int) - 1) := by decide

/-- C3 (amended): after an invocation of the cycle switcher that issues a
focus command, if the scope's cursor started nonnegative and the history
limit is at least 1 then the new cursor lies in
[0, min(len(list), history_limit) - 1], wrapping to 0 at the upper bound.
(The unrestricted claim fails on the skip-self branch, which advances the
cursor past the bound without issuing a command.) -/
theorem switch_cursor_bound_on_command {Id : Type} [DecidableEq Id] (histLimit : Nat)
    (key : String) (focused c : Id) (windows : List Id) (s s' : FWState Id)
    (h : switch_win histLimit key focused windows s = some (s', some c))
    (idx : Int) (hi : alookup key s.window_index = some idx) (hpos : 0 ≤ idx)
    (hlim : 1 ≤ histLimit) :
    ∃ l' i', alookup key s'.window_list = some l' ∧ alookup key s'.window_index = some i' ∧
      0 ≤ i' ∧ i' ≤ ((min l'.length histLimit : Nat) : Int) - 1 := by
  unfold switch_win at h
  cases hl : alookup key s.window_list with
  | none =>
      rw [hl] at h
      simp at h
  | some wlist =>
      rw [hl] at h
      dsimp only at h
      rw [hi] at h
      dsimp only at h
      cases hscan : scan_loop windows focused histLimit (pySlice wlist idx) wlist idx with
      | none =>
          rw [hscan] at h
          cases h
      | some r =>
          rw [hscan] at h
          dsimp only at h
          injection h with hinj
          injection hinj with hs' hcmd
          have hbound := scan_loop_command_cursor_bound windows focused histLimit hlim
            (pySlice wlist idx) wlist idx r hpos
            (fun w hw _ => mem_pySlice hw) hscan (by rw [hcmd]; rfl)
          refine ⟨r.wlist, r.idx, ?_, ?_, hbound.1, hbound.2⟩
          · rw [← hs']
            exact alookup_alistSet_self key r.wlist s.window_list
          · rw [← hs']
            exact alookup_alistSet_self key r.idx s.window_index

/-- Witness for the amended C3: scope "k" with list [1, 2], cursor 1,
focused 1, valid set containing 1 and 2: the command targets 2 and the
cursor wraps to 0 within the bound. -/
theorem switch_cursor_bound_on_command_witness :
    ∃ l' i',
      alookup "k" ((⟨[("k", [1, 2])], [("k", 0)]⟩ : FWState Nat)).window_list = some l' ∧
      alookup "k" ((⟨[("k", [1, 2])], [("k", 0)]⟩ : FWState Nat)).window_index = some i' ∧
      0 ≤ i' ∧ i' ≤ ((min l'.length 16 : Nat) : Int) - 1 :=
  switch_cursor_bound_on_command 16 "k" 1 2 [1, 2]
    ⟨[("k", [1, 2])], [("k", 1)]⟩ ⟨[("k", [1, 2])], [("k", 0)]⟩ (by decide)
    1 (by decide) (by decide) (by decide)

/-- C4: on scope "k" with history list [W3, W2, W1] = [3, 2, 1], cursor 1,
focused entity W3 = 3 and valid set containing only W3 and W1, one switch
invocation removes the stale W2 so the list becomes [3, 1], issues exactly
one focus command targeting W1 = 1, and wraps the cursor to 0 (since 1 is
not below min(2, 16) - 1 = 1). -/
theorem switch_stale_removal_scenario :
    switch_win 16 "k" (3 : Nat) [3, 1] ⟨[("k", [3, 2, 1])], [("k", 1)]⟩
      = some (⟨[("k", [3, 1])], [("k", 0)]⟩, some 1) := by decide

/-- C10: a cycle-switch invocation can mutate at most the history list and
cursor of the scope key it operates on; the lists and cursors looked up at
every other scope key are unchanged. -/
theorem switch_other_scopes_unchanged {Id : Type} [DecidableEq Id] (histLimit : Nat)
    (key : String) (focused : Id) (windows : List Id) (s s' : FWState Id) (cmd : Option Id)
    (h : switch_win histLimit key focused windows s = some (s', cmd))
    (k : String) (hk : k ≠ key) :
    alookup k s'.window_list = alookup k s.window_list ∧
    alookup k s'.window_index = alookup k s.window_index := by
  unfold switch_win at h
  cases hl : alookup key s.window_list with
  | none =>
      rw [hl] at h
      dsimp only at h
      injection h with hinj
      injection hinj with hs hcmd
      rw [← hs]
      exact ⟨rfl, rfl⟩
  | some wlist =>
      rw [hl] at h
      dsimp only at h
      cases hi : alookup key s.window_index with
      | none =>
          rw [hi] at h
          cases h
      | some idx =>
          rw [hi] at h
          dsimp only at h
          cases hscan : scan_loop windows focused histLimit (pySlice wlist idx) wlist idx with
          | none =>
              rw [hscan] at h
              cases h
          | some r =>
              rw [hscan] at h
              dsimp only at h
              injection h with hinj
              injection hinj with hs' hcmd
              rw [← hs']
              exact ⟨alookup_alistSet_ne hk r.wlist s.window_list,
                     alookup_alistSet_ne hk r.idx s.window_index⟩

/-- Witness for C10: a switch on scope "a" that drops stale entry 4 from
"a"'s list leaves scope "b"'s list and cursor untouched. -/
theorem switch_other_scopes_unchanged_witness :
    alookup "b" ((⟨[("a", [1]), ("b", [2])], [("a", 1), ("b", 7)]⟩ : FWState Nat)).window_list
      = alookup "b" ((⟨[("a", [1, 4]), ("b", [2])], [("a", 1), ("b", 7)]⟩ : FWState Nat)).window_list
    ∧ alookup "b" ((⟨[("a", [1]), ("b", [2])], [("a", 1), ("b", 7)]⟩ : FWState Nat)).window_index
      = alookup "b" ((⟨[("a", [1, 4]), ("b", [2])], [("a", 1), ("b", 7)]⟩ : FWState Nat)).window_index :=
  switch_other_scopes_unchanged 16 "a" (1 : Nat) [1]
    ⟨[("a", [1, 4]), ("b", [2])], [("a", 1), ("b", 7)]⟩
    ⟨[("a", [1]), ("b", [2])], [("a", 1), ("b", 7)]⟩ none (by decide) "b" (by decide)

end I3Tools
